import Mathlib

/-!
Shallow embedding of the deterministic 2-D field simulation engine
(`src/src/lib.rs`) and proofs of its specified properties.

Modelling conventions:
* Machine integers (`u32`, `u64`, `i64`) are modelled as `Nat`/`Int`, with an
  explicit `% 2^w` wherever the Rust code can overflow (the `u64` left shifts
  in `xorshift64`; the `u32` additions `x0 + w` / `y0 + h` and the `u32`
  capacity product `w * h` in `get_field_slice`, whose `Vec::with_capacity`
  allocation trap on the 32-bit wasm target is modelled too).  The `step`
  counter is modelled as an unbounded `Nat` (reaching `2^64` would need more
  than `2^32` calls).
* `f64` field values are modelled as exact rationals `ℚ`; the update formula
  and the initialisation formula are translated term for term.  For the hash,
  which operates on the raw 8-byte encodings of the doubles, a float is
  represented by its 64-bit pattern (a `Nat`), since only the bytes matter.
* The canister's global `STATE : RefCell<Option<EngineState>>` is modelled as
  an `Option (EngineState _)` value threaded through the operations; a Rust
  trap (a failed assertion rolls back the message on the IC) is
  modelled as `Except.error`, and `applyUpdate` expresses the roll-back
  semantics (a failed update leaves the state unchanged).
-/

namespace FieldEngine

/-- `2^64`, the modulus of `u64` arithmetic. -/
def U64 : Nat := 2 ^ 64

/-- `u64::MAX`. -/
def u64Max : Nat := 2 ^ 64 - 1

/-- `2^32`, the modulus of `u32` arithmetic. -/
def U32 : Nat := 2 ^ 32

/-- Wrapping `u32` addition (release-mode semantics of `a + b` on `u32`). -/
def add32 (a b : Nat) : Nat := (a + b) % U32

/-- Wrapping `u32` multiplication (release-mode semantics of `a * b` on
`u32`). -/
def mul32 (a b : Nat) : Nat := (a * b) % U32

/-- `isize::MAX` on the wasm32 target the canister runs on, where `usize` is
32 bits. -/
def isizeMax32 : Nat := 2 ^ 31 - 1

/-- The xorshift64 mixing function from `src/src/lib.rs`:
`x ^= x << 13; x ^= x >> 7; x ^= x << 17` on a `u64`. -/
def xorshift64 (x : Nat) : Nat :=
  let x1 := x ^^^ ((x <<< 13) % U64)
  let x2 := x1 ^^^ (x1 >>> 7)
  let x3 := x2 ^^^ ((x2 <<< 17) % U64)
  x3

/-- `seed_to_u64` from the source: the seed is used verbatim. -/
def seed_to_u64 (seed : Nat) : Nat := seed

/-- Row-major index: `idx(dim, x, y) = y*dim + x`. -/
def idx (dim x y : Nat) : Nat := y * dim + x

/-- `wrap(dim, v)` from the source: Rust's truncated `v % d` followed by a
`+ d` fix-up when the remainder is negative. -/
def wrap (dim : Nat) (v : Int) : Nat :=
  let d : Int := (dim : Int)
  let r : Int := Int.tmod v d
  (if r < 0 then r + d else r).toNat

/-- `EngineState` from the source, polymorphic in the representation of a
field cell: `α = ℚ` for the numeric model, `α = Nat` (the 64-bit pattern of
the double) for the byte-level hashing model. -/
structure EngineState (α : Type) where
  dim : Nat
  step : Nat
  field : List α
  alpha : α
deriving DecidableEq

/-- The field-population loop of `init_engine`: starting from PRNG state `s`,
produce `n` cells, each `u * 2 - 1` with `u = s' / u64::MAX` where `s'` is the
next PRNG state. -/
def prngField (s : Nat) : Nat → List ℚ
  | 0 => []
  | n + 1 =>
    let s2 := xorshift64 s
    (((s2 : ℚ) / (u64Max : ℚ)) * 2 - 1) :: prngField s2 n

/-- `init_engine(dim, seed, alpha)` from the source: validate the ranges,
then build the freshly populated state with `step = 0`. -/
def init_engine (dim seed : Nat) (alpha : ℚ) : Except String (EngineState ℚ) :=
  if ¬ (4 ≤ dim ∧ dim ≤ 512) then Except.error ("dim out of range")
  else if ¬ (0 < alpha ∧ alpha ≤ 1 / 4) then Except.error ("alpha out of safe range")
  else Except.ok
    { dim := dim
      step := 0
      field := prngField (seed_to_u64 seed) (dim * dim)
      alpha := alpha }

/-- The body of the stencil in `tick`: the new value of cell `(x, y)`, all
five reads taken from the old field `f`. -/
def cellNew (dim : Nat) (alpha : ℚ) (f : List ℚ) (x y : Nat) : ℚ :=
  let c := f.getD (idx dim x y) 0
  let l := f.getD (idx dim (wrap dim ((x : Int) - 1)) y) 0
  let r := f.getD (idx dim (wrap dim ((x : Int) + 1)) y) 0
  let u := f.getD (idx dim x (wrap dim ((y : Int) - 1))) 0
  let d := f.getD (idx dim x (wrap dim ((y : Int) + 1))) 0
  c + alpha * ((l + r + u + d) - 4 * c)

/-- One full pass of `tick`'s inner double loop: every cell of the `dim*dim`
buffer is overwritten with `cellNew` computed from the pre-step field.  (In
the source the scratch buffer `next` starts as a copy of the field, but every
position `idx(dim,x,y)`, `x,y < dim`, is written before the commit, so the
committed buffer is exactly this map.) -/
def stepField (dim : Nat) (alpha : ℚ) (f : List ℚ) : List ℚ :=
  (List.range (dim * dim)).map (fun i => cellNew dim alpha f (i % dim) (i / dim))

/-- The `for _ in 0..n` loop of `tick`: each iteration commits one full pass
and increments `step`. -/
def tickN : Nat → EngineState ℚ → EngineState ℚ
  | 0, st => st
  | n + 1, st =>
    tickN n { st with field := stepField st.dim st.alpha st.field, step := st.step + 1 }

/-- `tick(n)` as an operation on the global optional state: it traps
("engine not initialized") when no state is present. -/
def tickOp (n : Nat) : Option (EngineState ℚ) → Except String (Option (EngineState ℚ))
  | none => Except.error ("engine not initialized")
  | some st => Except.ok (some (tickN n st))

/-- `init_engine` as an operation on the global optional state: the previous
state is not consulted; on success it is replaced wholesale. -/
def initOp (dim seed : Nat) (alpha : ℚ) :
    Option (EngineState ℚ) → Except String (Option (EngineState ℚ)) :=
  fun _ => (init_engine dim seed alpha).map some

/-- IC message semantics: a trapped (error) update rolls back, leaving the
state unchanged; a successful update commits the new state. -/
def applyUpdate
    (op : Option (EngineState ℚ) → Except String (Option (EngineState ℚ)))
    (s : Option (EngineState ℚ)) : Option (EngineState ℚ) :=
  match op s with
  | Except.ok s2 => s2
  | Except.error _ => s

/-- `get_step`: `map(|s| s.step).unwrap_or(0)`. -/
def get_step {α : Type} : Option (EngineState α) → Nat
  | none => 0
  | some st => st.step

/-- `get_dim`: `map(|s| s.dim).unwrap_or(0)`. -/
def get_dim {α : Type} : Option (EngineState α) → Nat
  | none => 0
  | some st => st.dim

/-- Rust's half-open range `lo..hi` as a list (empty when `hi ≤ lo`). -/
def rustRange (lo hi : Nat) : List Nat :=
  (List.range (hi - lo)).map (fun i => lo + i)

/-- `get_field_slice(x0, y0, w, h)` from the source.  The bound checks
`x0 + w <= dim` and `y0 + h <= dim`, the capacity `(w * h) as usize`, and the
loop end points `x0 + w` and `y0 + h` use wrapping `u32` arithmetic (`add32`,
`mul32`), exactly as compiled Rust release code does.  The subsequent
`Vec::with_capacity(cap)` traps with a capacity overflow whenever
`cap * size_of::<f64>()` exceeds `isize::MAX` (`Layout::array::<f64>`), which
on the 32-bit wasm target means `8 * cap > 2^31 - 1`; this trap is modelled
as the error branch before the loops. -/
def get_field_slice (x0 y0 w h : Nat) :
    Option (EngineState ℚ) → Except String (List ℚ)
  | none => Except.error ("engine not initialized")
  | some st =>
    let dim := st.dim
    if ¬ (x0 < dim ∧ y0 < dim) then Except.error ("start out of range")
    else if ¬ (1 ≤ w ∧ 1 ≤ h) then Except.error ("invalid size")
    else if ¬ (add32 x0 w ≤ dim ∧ add32 y0 h ≤ dim) then Except.error ("slice out of range")
    else if isizeMax32 < 8 * mul32 w h then Except.error ("capacity overflow")
    else Except.ok
      (((rustRange y0 (add32 y0 h)).map (fun yy =>
        (rustRange x0 (add32 x0 w)).map (fun xx =>
          st.field.getD (idx dim xx yy) 0))).flatten)

/-! ### SHA-256 and the canonical state hash

The source hashes, with the `sha2` crate, the concatenation of
`dim.to_le_bytes()` (4 bytes), `step.to_le_bytes()` (8 bytes),
`alpha.to_le_bytes()` (8 bytes, the raw IEEE-754 bit pattern) and
`v.to_le_bytes()` for every field value in order.  SHA-256 itself
(FIPS 180-4) is implemented below over byte lists; sequential
`Digest::update` calls hash the concatenation of their inputs, so
`get_hash` is modelled as one hash of the concatenated byte string. -/

/-- `2^32` as the word modulus of SHA-256 arithmetic. -/
def M32 : Nat := 4294967296

/-- Right rotation of a 32-bit word. -/
def rotr32 (n w : Nat) : Nat := ((w >>> n) ||| (w <<< (32 - n))) % M32

/-- SHA-256 `Ch(x,y,z) = (x ∧ y) ⊕ (¬x ∧ z)`. -/
def shaCh (x y z : Nat) : Nat := (x &&& y) ^^^ ((x ^^^ (M32 - 1)) &&& z)

/-- SHA-256 `Maj(x,y,z)`. -/
def shaMaj (x y z : Nat) : Nat := (x &&& y) ^^^ (x &&& z) ^^^ (y &&& z)

/-- SHA-256 `Σ₀`. -/
def bsig0 (x : Nat) : Nat := rotr32 2 x ^^^ rotr32 13 x ^^^ rotr32 22 x

/-- SHA-256 `Σ₁`. -/
def bsig1 (x : Nat) : Nat := rotr32 6 x ^^^ rotr32 11 x ^^^ rotr32 25 x

/-- SHA-256 `σ₀`. -/
def ssig0 (x : Nat) : Nat := rotr32 7 x ^^^ rotr32 18 x ^^^ (x >>> 3)

/-- SHA-256 `σ₁`. -/
def ssig1 (x : Nat) : Nat := rotr32 17 x ^^^ rotr32 19 x ^^^ (x >>> 10)

/-- The 64 SHA-256 round constants. -/
def shaK : List Nat :=
  [1116352408, 1899447441, 3049323471, 3921009573, 961987163,
   1508970993, 2453635748, 2870763221, 3624381080, 310598401,
   607225278, 1426881987, 1925078388, 2162078206, 2614888103,
   3248222580, 3835390401, 4022224774, 264347078, 604807628,
   770255983, 1249150122, 1555081692, 1996064986, 2554220882,
   2821834349, 2952996808, 3210313671, 3336571891, 3584528711,
   113926993, 338241895, 666307205, 773529912, 1294757372,
   1396182291, 1695183700, 1986661051, 2177026350, 2456956037,
   2730485921, 2820302411, 3259730800, 3345764771, 3516065817,
   3600352804, 4094571909, 275423344, 430227734, 506948616,
   659060556, 883997877, 958139571, 1322822218, 1537002063,
   1747873779, 1955562222, 2024104815, 2227730452, 2361852424,
   2428436474, 2756734187, 3204031479, 3329325298]

/-- The SHA-256 initial hash value. -/
def shaH0 : List Nat :=
  [1779033703, 3144134277, 1013904242, 2773480762,
   1359893119, 2600822924, 528734635, 1541459225]

/-- `k` little-endian bytes of `v` (Rust's `to_le_bytes`). -/
def toLE : Nat → Nat → List Nat
  | 0, _ => []
  | k + 1, v => (v % 256) :: toLE k (v / 256)

/-- `k` big-endian bytes of `v` (SHA-256 length field and word output). -/
def toBE : Nat → Nat → List Nat
  | 0, _ => []
  | k + 1, v => toBE k (v / 256) ++ [v % 256]

/-- SHA-256 padding: append `0x80`, zero bytes up to 56 mod 64, then the
bit length as 8 big-endian bytes. -/
def padMessage (msg : List Nat) : List Nat :=
  let len := msg.length
  let zeros := (64 + 55 - len % 64) % 64
  msg ++ 0x80 :: List.replicate zeros 0 ++ toBE 8 (8 * len)

/-- Take `n` consecutive 64-byte blocks from a byte list. -/
def toBlocksN : Nat → List Nat → List (List Nat)
  | 0, _ => []
  | n + 1, l => l.take 64 :: toBlocksN n (l.drop 64)

/-- Split a byte list into its 64-byte blocks. -/
def toBlocks (l : List Nat) : List (List Nat) := toBlocksN ((l.length + 63) / 64) l

/-- Group bytes into big-endian 32-bit words. -/
def bytesToWords : List Nat → List Nat
  | b0 :: b1 :: b2 :: b3 :: rest =>
    (((b0 * 256 + b1) * 256 + b2) * 256 + b3) :: bytesToWords rest
  | _ => []

/-- Message-schedule expansion from 16 to 64 words. -/
def schedule (ws : List Nat) : List Nat :=
  (List.range 48).foldl (fun acc i =>
    let t2 := acc.getD (i + 14) 0
    let t15 := acc.getD (i + 1) 0
    let t7 := acc.getD (i + 9) 0
    let t16 := acc.getD i 0
    acc ++ [(ssig1 t2 + t7 + ssig0 t15 + t16) % M32]) ws

/-- One SHA-256 round on the eight working variables. -/
def roundStep (w k : Nat) (st : List Nat) : List Nat :=
  let a := st.getD 0 0
  let b := st.getD 1 0
  let c := st.getD 2 0
  let d := st.getD 3 0
  let e := st.getD 4 0
  let f := st.getD 5 0
  let g := st.getD 6 0
  let h := st.getD 7 0
  let t1 := (h + bsig1 e + shaCh e f g + k + w) % M32
  let t2 := (bsig0 a + shaMaj a b c) % M32
  [(t1 + t2) % M32, a, b, c, (d + t1) % M32, e, f, g]

/-- SHA-256 compression of one 64-byte block into the chaining value. -/
def compressBlock (hs : List Nat) (block : List Nat) : List Nat :=
  let ws := schedule (bytesToWords block)
  let fin := (List.range 64).foldl
    (fun st i => roundStep (ws.getD i 0) (shaK.getD i 0) st) hs
  List.zipWith (fun x y => (x + y) % M32) hs fin

/-- SHA-256 of a byte list, as the 32 digest bytes. -/
def sha256 (msg : List Nat) : List Nat :=
  let hs := (toBlocks (padMessage msg)).foldl compressBlock shaH0
  (hs.map (toBE 4)).flatten

/-- The byte string hashed by `get_hash`, in the order the source feeds the
hasher: `dim` (4 bytes LE), `step` (8 bytes LE), `alpha`'s bit pattern
(8 bytes LE), then each field value's bit pattern (8 bytes LE) in row-major
order. -/
def hashBytes (st : EngineState Nat) : List Nat :=
  toLE 4 st.dim ++ toLE 8 st.step ++ toLE 8 st.alpha ++ (st.field.map (toLE 8)).flatten

/-- `get_hash` from the source: traps when uninitialized, otherwise the
SHA-256 digest of `hashBytes`. -/
def get_hash : Option (EngineState Nat) → Except String (List Nat)
  | none => Except.error ("engine not initialized")
  | some st => Except.ok (sha256 (hashBytes st))

/-- The hash input as the specification words it: "dim as 4 little-endian
bytes, step as 8 little-endian bytes, alpha as its raw bit pattern in
8 little-endian bytes, then each field value in row-major order as its raw
bit pattern in 8 little-endian bytes". -/
def specHashBytes (st : EngineState Nat) : List Nat :=
  toLE 4 st.dim ++ toLE 8 st.step ++ toLE 8 st.alpha ++ st.field.flatMap (fun v => toLE 8 v)

/-- A concrete initialized field: the 16 cells produced by seed 1 for a 4×4
grid. -/
def demoField : List ℚ := prngField 1 16

/-- The concrete state produced by `init_engine(4, 1, 1/10)`. -/
def demoState : EngineState ℚ :=
  { dim := 4, step := 0, field := demoField, alpha := 1 / 10 }

end FieldEngine

namespace FieldEngine

/-! ### Helper lemmas -/

/-- The source's `wrap` agrees with the always-non-negative (floored /
Euclidean, identical for a positive modulus) modulo, for the arguments
`x ± 1 ≥ -1` it is applied to. -/
theorem wrap_eq_emod (d : Nat) (hd : 0 < d) (v : Int) (hv : -1 ≤ v) :
    (wrap d v : Int) = v % (d : Int) := by
  simp only [wrap]
  rcases lt_or_le v 0 with hneg | hpos
  · have hv1 : v = -1 := by omega
    subst hv1
    rcases Nat.lt_or_ge d 2 with h1 | h2
    · have hd1 : d = 1 := by omega
      subst hd1
      simp
    · have ht : Int.tmod (-1) (d : Int) = -1 := by
        have hrfl : Int.tmod (-1) (d : Int) = -Int.ofNat (1 % d) := rfl
        rw [hrfl, Nat.mod_eq_of_lt h2]
        rfl
      rw [ht]
      simp only [if_pos (by omega : (-1 : Int) < 0)]
      have hmod : (-1 : Int) % (d : Int) = (d : Int) - 1 := by
        have h1 : ((-1 : Int) + (d : Int) * 1) % (d : Int) = (-1 : Int) % (d : Int) :=
          Int.add_mul_emod_self_left (-1) (d : Int) 1
        have h2' : ((-1 : Int) + (d : Int) * 1) % (d : Int) = (d : Int) - 1 := by
          rw [Int.emod_eq_of_lt (by omega) (by omega)]
          ring
        omega
      rw [hmod]
      omega
  · rw [Int.tmod_eq_emod hpos (by positivity)]
    have h1 : 0 ≤ v % (d : Int) := Int.emod_nonneg v (by omega)
    have h2 : v % (d : Int) < (d : Int) := Int.emod_lt_of_pos v (by exact_mod_cast hd)
    simp only [if_neg (by omega : ¬ v % (d : Int) < 0)]
    omega

theorem wrap_eq_toNat_emod (d : Nat) (hd : 0 < d) (v : Int) (hv : -1 ≤ v) :
    wrap d v = (v % (d : Int)).toNat := by
  have h := wrap_eq_emod d hd v hv
  have h0 : 0 ≤ v % (d : Int) :=
    Int.emod_nonneg v (by exact_mod_cast Nat.pos_iff_ne_zero.mp hd)
  omega

theorem idx_lt (dim x y : Nat) (hx : x < dim) (hy : y < dim) :
    idx dim x y < dim * dim := by
  unfold idx
  calc y * dim + x < y * dim + dim := by omega
    _ = (y + 1) * dim := by ring
    _ ≤ dim * dim := Nat.mul_le_mul_right dim (by omega)

theorem stepField_getD (dim : Nat) (alpha : ℚ) (f : List ℚ) (x y : Nat)
    (hx : x < dim) (hy : y < dim) :
    (stepField dim alpha f).getD (idx dim x y) 0 = cellNew dim alpha f x y := by
  unfold stepField
  rw [List.getD_eq_getElem?_getD, List.getElem?_map,
    List.getElem?_range (idx_lt dim x y hx hy)]
  have hdim : 0 < dim := by omega
  have h1 : idx dim x y % dim = x := by
    unfold idx
    rw [Nat.mul_comm y dim, Nat.mul_add_mod, Nat.mod_eq_of_lt hx]
  have h2 : idx dim x y / dim = y := by
    unfold idx
    rw [Nat.mul_comm y dim, Nat.mul_add_div hdim, Nat.div_eq_of_lt hx, Nat.add_zero]
  simp [h1, h2]

theorem tickN_unfold (n : Nat) (st : EngineState ℚ) :
    (tickN n st).step = st.step + n ∧
    (tickN n st).field = (stepField st.dim st.alpha)^[n] st.field ∧
    (tickN n st).dim = st.dim ∧
    (tickN n st).alpha = st.alpha := by
  induction n generalizing st with
  | zero => exact ⟨rfl, rfl, rfl, rfl⟩
  | succ n ih =>
    have h := ih { st with field := stepField st.dim st.alpha st.field, step := st.step + 1 }
    refine ⟨?_, ?_, h.2.2.1, h.2.2.2⟩
    · rw [show tickN (n + 1) st =
        tickN n { st with field := stepField st.dim st.alpha st.field, step := st.step + 1 } from rfl]
      rw [h.1]
      show st.step + 1 + n = st.step + (n + 1)
      omega
    · rw [show tickN (n + 1) st =
        tickN n { st with field := stepField st.dim st.alpha st.field, step := st.step + 1 } from rfl]
      rw [h.2.1]
      show (stepField st.dim st.alpha)^[n] (stepField st.dim st.alpha st.field) = _
      exact (Function.iterate_succ_apply (stepField st.dim st.alpha) n st.field).symm


/-- C1: `tick(n)` performs exactly `n` update steps; each step replaces every
cell `(x,y)` by `center + alpha * ((left+right+up+down) - 4*center)` with the
neighbor coordinates wrapped by the always-non-negative modulo (`Int.emod`,
which for a positive modulus coincides with floored modulo), every read of a
step taken from the field as it existed at the start of that step (the new
field is a pure function `stepField` of the old one, iterated `n` times); and
`step` increases by exactly `n`. -/
theorem tick_spec (st : EngineState ℚ) (n : Nat) (hdim : 0 < st.dim) :
    tickOp n (some st) = Except.ok (some (tickN n st)) ∧
    (tickN n st).step = st.step + n ∧
    (tickN n st).field = (stepField st.dim st.alpha)^[n] st.field ∧
    ∀ f : List ℚ, ∀ x y : Nat, x < st.dim → y < st.dim →
      (stepField st.dim st.alpha f).getD (idx st.dim x y) 0 =
        f.getD (idx st.dim x y) 0 +
          st.alpha *
            ((f.getD (idx st.dim (((x : Int) - 1) % (st.dim : Int)).toNat y) 0 +
              f.getD (idx st.dim (((x : Int) + 1) % (st.dim : Int)).toNat y) 0 +
              f.getD (idx st.dim x (((y : Int) - 1) % (st.dim : Int)).toNat) 0 +
              f.getD (idx st.dim x (((y : Int) + 1) % (st.dim : Int)).toNat) 0) -
             4 * f.getD (idx st.dim x y) 0) := by
  refine ⟨rfl, (tickN_unfold n st).1, (tickN_unfold n st).2.1, ?_⟩
  intro f x y hx hy
  rw [stepField_getD st.dim st.alpha f x y hx hy]
  unfold cellNew
  rw [wrap_eq_toNat_emod st.dim hdim ((x : Int) - 1) (by omega),
    wrap_eq_toNat_emod st.dim hdim ((x : Int) + 1) (by omega),
    wrap_eq_toNat_emod st.dim hdim ((y : Int) - 1) (by omega),
    wrap_eq_toNat_emod st.dim hdim ((y : Int) + 1) (by omega)]

/-- Witness for `tick_spec`: the instantiation at the concrete state
`demoState` (`dim = 4`), `n = 2`, cell `(0, 0)`. -/
theorem tick_spec_witness :
    (stepField demoState.dim demoState.alpha demoField).getD (idx demoState.dim 0 0) 0 =
      demoField.getD (idx demoState.dim 0 0) 0 +
        demoState.alpha *
          ((demoField.getD (idx demoState.dim (((0 : Int) - 1) % (demoState.dim : Int)).toNat 0) 0 +
            demoField.getD (idx demoState.dim (((0 : Int) + 1) % (demoState.dim : Int)).toNat 0) 0 +
            demoField.getD (idx demoState.dim 0 (((0 : Int) - 1) % (demoState.dim : Int)).toNat) 0 +
            demoField.getD (idx demoState.dim 0 (((0 : Int) + 1) % (demoState.dim : Int)).toNat) 0) -
           4 * demoField.getD (idx demoState.dim 0 0) 0) :=
  (tick_spec demoState 2 (by decide)).2.2.2 demoField 0 0 (by decide) (by decide)

/-- C5: step additivity — `tick(a)` followed by `tick(b)` yields exactly the
same state (field, step, dim, alpha) as a single `tick(a+b)`. -/
theorem tick_additive (st : EngineState ℚ) (a b : Nat) :
    tickN b (tickN a st) = tickN (a + b) st ∧
    applyUpdate (tickOp b) (applyUpdate (tickOp a) (some st)) =
      applyUpdate (tickOp (a + b)) (some st) := by
  have h : ∀ (a : Nat) (st : EngineState ℚ), tickN b (tickN a st) = tickN (a + b) st := by
    intro a
    induction a with
    | zero =>
      intro st
      rw [Nat.zero_add]
      rfl
    | succ a ih =>
      intro st
      rw [show tickN (a + 1) st =
        tickN a { st with field := stepField st.dim st.alpha st.field, step := st.step + 1 } from rfl]
      rw [ih]
      rw [show a + 1 + b = (a + b) + 1 from by omega]
      rfl
  refine ⟨h a st, ?_⟩
  show (some (tickN b (tickN a st)) : Option (EngineState ℚ)) = some (tickN (a + b) st)
  rw [h a st]

/-- C10: frame condition — `tick(n)` leaves `dim` and `alpha` unchanged (only
`field` and `step` are modified). -/
theorem tick_frame (st : EngineState ℚ) (n : Nat) :
    (tickN n st).dim = st.dim ∧ (tickN n st).alpha = st.alpha :=
  ⟨(tickN_unfold n st).2.2.1, (tickN_unfold n st).2.2.2⟩


instance {e a : Type} [DecidableEq e] [DecidableEq a] : DecidableEq (Except e a) := fun x y =>
  match x, y with
  | Except.ok v, Except.ok v2 =>
    if h : v = v2 then Decidable.isTrue (by rw [h])
    else Decidable.isFalse (fun hc => h (Except.ok.inj hc))
  | Except.error v, Except.error v2 =>
    if h : v = v2 then Decidable.isTrue (by rw [h])
    else Decidable.isFalse (fun hc => h (Except.error.inj hc))
  | Except.ok _, Except.error _ => Decidable.isFalse (fun hc => Except.noConfusion hc)
  | Except.error _, Except.ok _ => Decidable.isFalse (fun hc => Except.noConfusion hc)

theorem prngField_length (n s : Nat) : (prngField s n).length = n := by
  induction n generalizing s with
  | zero => rfl
  | succ n ih => simp [prngField, ih]

theorem prngField_getD (n s i : Nat) (hi : i < n) :
    (prngField s n).getD i 0 =
      ((xorshift64^[i + 1] s : ℚ) / (u64Max : ℚ)) * 2 - 1 := by
  induction n generalizing s i with
  | zero => omega
  | succ n ih =>
    cases i with
    | zero =>
      rw [show prngField s (n + 1) =
        (((xorshift64 s : ℚ) / (u64Max : ℚ)) * 2 - 1) :: prngField (xorshift64 s) n from rfl]
      rw [List.getD_cons_zero, Function.iterate_one]
    | succ i =>
      rw [show prngField s (n + 1) =
        (((xorshift64 s : ℚ) / (u64Max : ℚ)) * 2 - 1) :: prngField (xorshift64 s) n from rfl]
      rw [List.getD_cons_succ, ih (xorshift64 s) i (by omega),
        ← Function.iterate_succ_apply xorshift64 (i + 1) s]

/-- The state built by `init_engine(4, 1, 1/10)` is `demoState`. -/
theorem demoState_init : init_engine 4 1 (1 / 10) = Except.ok demoState := by
  unfold init_engine
  rw [if_neg (not_not_intro ⟨by norm_num, by norm_num⟩),
    if_neg (not_not_intro ⟨by norm_num, by norm_num⟩)]
  rfl

/-- C2: a successful `init_engine(dim, seed, alpha)` produces a field of
`dim*dim` values in row-major order whose `i`-th value (0-based) is
`u * 2 - 1` with `u = x_(i+1) / u64::MAX`, where `x_1, x_2, ...` are the
successive `xorshift64` iterates of the seed used verbatim, and sets `step`
to 0. -/
theorem init_engine_spec (dim seed : Nat) (alpha : ℚ) (st : EngineState ℚ)
    (h : init_engine dim seed alpha = Except.ok st) :
    st.step = 0 ∧ st.field.length = dim * dim ∧
    ∀ i, i < dim * dim →
      st.field.getD i 0 =
        ((xorshift64^[i + 1] (seed_to_u64 seed) : ℚ) / (u64Max : ℚ)) * 2 - 1 := by
  unfold init_engine at h
  split at h
  · exact absurd h (by simp)
  · split at h
    · exact absurd h (by simp)
    · cases h
      exact ⟨rfl, prngField_length (dim * dim) (seed_to_u64 seed),
        fun i hi => prngField_getD (dim * dim) (seed_to_u64 seed) i hi⟩

/-- Witness for `init_engine_spec`: cell 5 of the state built by
`init_engine(4, 1, 1/10)`. -/
theorem init_engine_spec_witness :
    demoState.field.getD 5 0 =
      ((xorshift64^[5 + 1] (seed_to_u64 1) : ℚ) / (u64Max : ℚ)) * 2 - 1 :=
  (init_engine_spec 4 1 (1 / 10) demoState demoState_init).2.2 5 (by decide)

/-- C3: determinism of initialization — the result of `init_engine` is a pure
function of `(dim, seed, alpha)`: it is independent of whatever state was
previously held (no hidden entropy source is consulted), and any two
successful results for the same triple have element-wise identical fields. -/
theorem init_engine_deterministic (dim seed : Nat) (alpha : ℚ)
    (prev1 prev2 : Option (EngineState ℚ)) (st1 st2 : EngineState ℚ)
    (h1 : init_engine dim seed alpha = Except.ok st1)
    (h2 : init_engine dim seed alpha = Except.ok st2) :
    initOp dim seed alpha prev1 = initOp dim seed alpha prev2 ∧
    st1.field = st2.field := by
  refine ⟨rfl, ?_⟩
  rw [h1] at h2
  cases h2
  rfl

/-- Witness for `init_engine_deterministic` at `(4, 1, 1/10)` with two
different previous states. -/
theorem init_engine_deterministic_witness :
    initOp 4 1 (1 / 10) none = initOp 4 1 (1 / 10) (some demoState) ∧
    demoState.field = demoState.field :=
  init_engine_deterministic 4 1 (1 / 10) none (some demoState) demoState demoState
    demoState_init demoState_init

theorem init_engine_isOk (dim seed : Nat) (alpha : ℚ) :
    (init_engine dim seed alpha).isOk = true ↔
      (4 ≤ dim ∧ dim ≤ 512 ∧ 0 < alpha ∧ alpha ≤ 1 / 4) := by
  unfold init_engine
  by_cases h1 : 4 ≤ dim ∧ dim ≤ 512
  · rw [if_neg (not_not_intro h1)]
    by_cases h2 : 0 < alpha ∧ alpha ≤ 1 / 4
    · rw [if_neg (not_not_intro h2)]
      simp only [Except.isOk, Except.toBool, true_iff]
      exact ⟨h1.1, h1.2, h2.1, h2.2⟩
    · rw [if_pos h2]
      simp only [Except.isOk, Except.toBool, Bool.false_eq_true, false_iff]
      tauto
  · rw [if_pos h1]
    simp only [Except.isOk, Except.toBool, Bool.false_eq_true, false_iff]
    tauto

/-- C7: `init_engine` fails exactly when `dim ∉ [4, 512]` or
`alpha ∉ (0, 1/4]`; in particular `dim = 512` with `alpha = 1/4` succeeds
while `dim = 3`, `dim = 513` and `alpha = 3/10` fail; and a failed
`init_engine` (validation precedes any write) leaves any previously held
state completely untouched. -/
theorem init_engine_validation (dim seed : Nat) (alpha : ℚ)
    (prev : Option (EngineState ℚ)) :
    ((init_engine dim seed alpha).isOk = true ↔
      (4 ≤ dim ∧ dim ≤ 512 ∧ 0 < alpha ∧ alpha ≤ 1 / 4)) ∧
    (init_engine 512 seed (1 / 4)).isOk = true ∧
    (init_engine 3 seed alpha).isOk = false ∧
    (init_engine 513 seed alpha).isOk = false ∧
    (init_engine dim seed (3 / 10)).isOk = false ∧
    ((init_engine dim seed alpha).isOk = false →
      applyUpdate (initOp dim seed alpha) prev = prev) := by
  refine ⟨init_engine_isOk dim seed alpha, ?_, ?_, ?_, ?_, ?_⟩
  · rw [init_engine_isOk]
    norm_num
  · rw [← Bool.not_eq_true, init_engine_isOk]
    norm_num
  · rw [← Bool.not_eq_true, init_engine_isOk]
    norm_num
  · rw [← Bool.not_eq_true, init_engine_isOk]
    norm_num
  · intro h
    unfold applyUpdate initOp
    cases hE : init_engine dim seed alpha with
    | ok st =>
      rw [hE] at h
      simp [Except.isOk, Except.toBool] at h
    | error e => simp [hE, Except.map]

/-- Witness for `init_engine_validation`: the failing call
`init_engine(3, 1, 1/10)` leaves the previous state untouched. -/
theorem init_engine_validation_witness :
    applyUpdate (initOp 3 1 (1 / 10)) (some demoState) = some demoState :=
  (init_engine_validation 3 1 (1 / 10) (some demoState)).2.2.2.2.2 rfl

/-- C8: with no field initialized, `get_step` and `get_dim` return 0 (not an
error), while `tick`, `get_hash` and `get_field_slice` each fail with the
"engine not initialized" precondition error, `tick` performing zero steps and
leaving the (absent) state unchanged. -/
theorem uninit_behavior (n x0 y0 w h : Nat) :
    get_step (none : Option (EngineState ℚ)) = 0 ∧
    get_dim (none : Option (EngineState ℚ)) = 0 ∧
    tickOp n none = Except.error ("engine not initialized") ∧
    get_hash none = Except.error ("engine not initialized") ∧
    get_field_slice x0 y0 w h none = Except.error ("engine not initialized") ∧
    applyUpdate (tickOp n) none = none :=
  ⟨rfl, rfl, rfl, rfl, rfl, rfl⟩


theorem toBE_length (k : Nat) : ∀ v : Nat, (toBE k v).length = k := by
  induction k with
  | zero => intro v; rfl
  | succ k ih =>
    intro v
    rw [show toBE (k + 1) v = toBE k (v / 256) ++ [v % 256] from rfl]
    rw [List.length_append, ih]
    rfl

theorem roundStep_length (w k : Nat) (st : List Nat) : (roundStep w k st).length = 8 := rfl

theorem foldl_roundStep_length (ws : List Nat) (l : List Nat) :
    ∀ st : List Nat, st.length = 8 →
      (l.foldl (fun s i => roundStep (ws.getD i 0) (shaK.getD i 0) s) st).length = 8 := by
  induction l with
  | nil => intro st h; exact h
  | cons i l ih =>
    intro st _
    exact ih (roundStep (ws.getD i 0) (shaK.getD i 0) st) (roundStep_length ..)

theorem compressBlock_length (hs block : List Nat) (h8 : hs.length = 8) :
    (compressBlock hs block).length = 8 := by
  unfold compressBlock
  rw [List.length_zipWith, foldl_roundStep_length _ _ hs h8, h8]
  rfl

theorem foldl_compressBlock_length (bs : List (List Nat)) :
    ∀ hs : List Nat, hs.length = 8 → (bs.foldl compressBlock hs).length = 8 := by
  induction bs with
  | nil => intro hs h; exact h
  | cons b bs ih =>
    intro hs h
    exact ih (compressBlock hs b) (compressBlock_length hs b h)

theorem flatten_map_toBE4_length (l : List Nat) :
    ((l.map (toBE 4)).flatten).length = 4 * l.length := by
  induction l with
  | nil => rfl
  | cons v l ih =>
    rw [List.map_cons, List.flatten_cons, List.length_append, ih, toBE_length,
      List.length_cons]
    ring

/-- SHA-256 always yields a 32-byte digest. -/
theorem sha256_length (msg : List Nat) : (sha256 msg).length = 32 := by
  unfold sha256
  rw [flatten_map_toBE4_length, foldl_compressBlock_length _ shaH0 rfl]

/-- C4: on an initialized state, `get_hash` returns exactly the 32-byte
SHA-256 digest of the byte string formed, in this order, by `dim` as 4
little-endian bytes, `step` as 8 little-endian bytes, `alpha`'s raw bit
pattern as 8 little-endian bytes, then each field value's raw bit pattern in
row-major order as 8 little-endian bytes (`specHashBytes`, written from the
specification's wording). -/
theorem get_hash_spec (st : EngineState Nat) :
    get_hash (some st) = Except.ok (sha256 (specHashBytes st)) ∧
    (sha256 (specHashBytes st)).length = 32 := by
  constructor
  · show Except.ok (sha256 (hashBytes st)) = Except.ok (sha256 (specHashBytes st))
    have h : hashBytes st = specHashBytes st := by
      unfold hashBytes specHashBytes
      rw [List.flatMap_def]
    rw [h]
  · exact sha256_length (specHashBytes st)

/-- C6 (divergence witness): on the dim-4 state `demoState`, the call
`get_field_slice(3, 3, 4294967295, 4294967295)` succeeds and returns the
empty list: the wrapping `u32` additions `3 + 4294967295 = 2` slip past the
bounds check, the capacity `w * h` wraps in `u32` to `1` so
`Vec::with_capacity(1)` succeeds, and both loop ranges `3..2` are empty —
although mathematically `x0 + w` exceeds `dim` (the claim requires the call
to fail) and the result does not have `w*h` values.  By contrast, at
`w = 4294967295, h = 1` the capacity does not wrap and the allocation traps
(8 * 4294967295 bytes overflows the 32-bit `usize`), so that call does fail. -/
theorem get_field_slice_overflow :
    get_field_slice 3 3 4294967295 4294967295 (some demoState) = Except.ok ([] : List ℚ) ∧
    demoState.dim < 3 + 4294967295 ∧
    ([] : List ℚ).length ≠ 4294967295 * 4294967295 ∧
    get_field_slice 3 0 4294967295 1 (some demoState) =
      Except.error ("capacity overflow") := by
  refine ⟨?_, by decide, by decide, ?_⟩
  · rfl
  · rfl


set_option maxRecDepth 4000 in
/-- Golden vector: the implementation reproduces the FIPS 180-4 SHA-256
digest of the empty message. -/
theorem sha256_empty :
    sha256 [] =
      [227, 176, 196, 66, 152, 252, 28, 20,
       154, 251, 244, 200, 153, 111, 185, 36,
       39, 174, 65, 228, 100, 155, 147, 76,
       164, 149, 153, 27, 120, 82, 184, 85] := by decide

end FieldEngine
